import Mathlib

/-!
# FinTrack AI — verification of the aggregation / projection view-model

Shallow embedding of the data-transformation core of the FinTrack personal
finance application (`src/App.tsx`, `src/types.ts`, the insight service and
the cascading-category-deletion variant).  JavaScript numbers are modelled
by exact integers (`Int`); all claims here concern the integer fragment of
the arithmetic.  JavaScript string order is modelled by Lean's `String`
order (identical on the ASCII/BMP fragment).
-/

namespace FinTrack

/-- Enum `TransactionType` from `src/types.ts`: enum with string values. -/
inductive TransactionType where
  | EXPENSE
  | INCOME
deriving DecidableEq, Repr

/-- The string value of the enum member (`'EXPENSE'` / `'INCOME'`),
used when a transaction is compared or serialized as JSON. -/
def typeStr : TransactionType → String
  | .EXPENSE => "EXPENSE"
  | .INCOME => "INCOME"

/-- Record `Transaction` from `src/types.ts`. -/
structure Transaction where
  id : String
  type : TransactionType
  category : String
  amount : Int
  date : String
  description : String
deriving DecidableEq, Repr

/-- Record `CategorySummary` from `src/types.ts`. -/
structure CategorySummary where
  name : String
  value : Int
  color : String
deriving DecidableEq, Repr

/-- Record `FinancialStats` from `src/types.ts`. -/
structure FinancialStats where
  totalIncome : Int
  totalExpenses : Int
  balance : Int
  expenseByCategory : List CategorySummary
deriving DecidableEq, Repr

/-- The fixed ten-colour palette `COLORS` from `src/App.tsx`. -/
def COLORS : List String :=
  ["#6366f1", "#10b981", "#f59e0b", "#ef4444", "#8b5cf6",
   "#ec4899", "#06b6d4", "#2dd4bf", "#fb7185", "#a855f7"]

/-! ## JavaScript helpers -/

/-- JavaScript `Array.prototype.map` with the element index, offset accumulator. -/
def jsMapIdxFrom (f : Nat → α → β) : Nat → List α → List β
  | _, [] => []
  | i, x :: xs => f i x :: jsMapIdxFrom f (i + 1) xs

/-- JavaScript `Array.prototype.map((item, index) => ...)`. -/
def jsMapIdx (f : Nat → α → β) (l : List α) : List β :=
  jsMapIdxFrom f 0 l

/-! ## The expense map (`expenseMap` in `stats`, `src/App.tsx` 108–111)

`expenseMap[t.category] = (expenseMap[t.category] || 0) + t.amount` over a
plain JavaScript object, modelled as an association list in property
creation order: assigning to an existing key keeps its position, a new key
is appended.  (`v || 0` on an exact number is the identity: it only sends
`0` to `0`.) -/

/-- One assignment `m[c] = (m[c] || 0) + a` on a plain JS object. -/
def expenseMapUpsert (m : List (String × Int)) (c : String) (a : Int) :
    List (String × Int) :=
  if m.any (fun p => p.1 == c) then
    m.map (fun p => if p.1 = c then (p.1, p.2 + a) else p)
  else
    m ++ [(c, a)]

/-- The `forEach` loop building `expenseMap` from the EXPENSE records. -/
def buildExpenseMap (ts : List Transaction) : List (String × Int) :=
  (ts.filter fun t => t.type == TransactionType.EXPENSE).foldl
    (fun m t => expenseMapUpsert m t.category t.amount) []

/-! ## `Object.entries` ordering

ECMAScript `OrdinaryOwnPropertyKeys`: keys that are canonical array
indices (decimal numerals below `2^32 - 1`) come first in ascending
numeric order, the remaining string keys follow in property creation
order. -/

/-- Numeric value of a digit string. -/
def natOfDigits (cs : List Char) : Nat :=
  cs.foldl (fun n c => 10 * n + (c.toNat - 48)) 0

/-- Whether a string is a canonical array-index property key: a canonical
decimal numeral (digits only, no leading zero except `"0"` itself) whose
value is below `2^32 - 1`. -/
def isArrayIndexKey (s : String) : Bool :=
  !s.data.isEmpty && s.data.all Char.isDigit
    && (decide (s.data = ['0']) || decide (s.data.head? ≠ some '0'))
    && decide (natOfDigits s.data < 4294967295)

/-- Numeric value of an array-index key (used only to order them). -/
def keyNat (s : String) : Nat :=
  natOfDigits s.data

/-- JavaScript `Object.entries` on the association-list model of a plain object. -/
def jsObjectEntries (m : List (String × Int)) : List (String × Int) :=
  (m.filter fun p => isArrayIndexKey p.1).mergeSort
      (fun p q => decide (keyNat p.1 ≤ keyNat q.1))
    ++ m.filter fun p => !isArrayIndexKey p.1

/-! ## The stats computation (`stats` in `src/App.tsx` 105–118) -/

/-- The comparator `(a, b) => b.value - a.value` as a `mergeSort` order:
`x` may precede `y` when the comparator is `≤ 0`, i.e. `y.value ≤ x.value`.
`Array.prototype.sort` is stable, as is `mergeSort`. -/
def valueDescLe (x y : String × Int) : Bool :=
  decide (y.2 ≤ x.2)

/-- Component `expenseByCategory`: entries of the expense map, sorted by value
descending, first ten kept, colour attached by rank. -/
def expenseByCategoryOf (ts : List Transaction) : List CategorySummary :=
  jsMapIdx
    (fun i p => { name := p.1, value := p.2,
                  color := COLORS.getD (i % COLORS.length) "" })
    (((jsObjectEntries (buildExpenseMap ts)).mergeSort valueDescLe).take 10)

/-- The `stats` memo of `src/App.tsx` (the spec's `computeStats`). -/
def computeStats (ts : List Transaction) : FinancialStats :=
  let totalIncome :=
    (ts.filter fun t => t.type == TransactionType.INCOME).foldl
      (fun sum t => sum + t.amount) 0
  let totalExpenses :=
    (ts.filter fun t => t.type == TransactionType.EXPENSE).foldl
      (fun sum t => sum + t.amount) 0
  { totalIncome := totalIncome
    totalExpenses := totalExpenses
    balance := totalIncome - totalExpenses
    expenseByCategory := expenseByCategoryOf ts }

/-! ## The view projector (`sortedAndFilteredTransactions`, `src/App.tsx` 90–103) -/

/-- Type `SortKey = keyof Transaction`. -/
inductive SortKey where
  | id
  | type
  | category
  | amount
  | date
  | description
deriving DecidableEq, Repr

/-- Type `SortDirection = 'asc' | 'desc'`. -/
inductive SortDirection where
  | asc
  | desc
deriving DecidableEq, Repr

/-- The value `t[key]`: a string for the five string-typed fields
(`type` compares through its enum string value), a number for `amount`. -/
inductive FieldVal where
  | s (v : String)
  | n (v : Int)
deriving DecidableEq, Repr

def fieldVal (k : SortKey) (t : Transaction) : FieldVal :=
  match k with
  | .id => .s t.id
  | .type => .s (typeStr t.type)
  | .category => .s t.category
  | .amount => .n t.amount
  | .date => .s t.date
  | .description => .s t.description

/-- The JavaScript `<` between two same-typed field values: lexicographic
for strings, numeric for numbers.  Mixed shapes do not occur (both values
come from the same key). -/
def fvLt : FieldVal → FieldVal → Bool
  | .s a, .s b => decide (a < b)
  | .n a, .n b => decide (a < b)
  | _, _ => false

/-- The comparator of `sortedAndFilteredTransactions` as a `mergeSort`
order: `a` may precede `b` exactly when the comparator value is `≤ 0`.
For `asc` that is `¬(aValue > bValue)`; `desc` flips the comparator. -/
def projLe (k : SortKey) (dir : SortDirection) (a b : Transaction) : Bool :=
  match dir with
  | .asc => ! fvLt (fieldVal k b) (fieldVal k a)
  | .desc => ! fvLt (fieldVal k a) (fieldVal k b)

/-- The filter step: `if (selectedCategory) result = result.filter(...)`.
The empty string is falsy in JavaScript, so a present-but-empty filter
retains everything. -/
def retainedTransactions (ts : List Transaction) (selectedCategory : Option String) :
    List Transaction :=
  match selectedCategory with
  | some c => if c = "" then ts else ts.filter fun t => t.category == c
  | none => ts

/-- The `sortedAndFilteredTransactions` memo of `src/App.tsx`: copy,
optionally filter by the selected category, then (stable) sort by the
configured key and direction. -/
def sortedAndFilteredTransactions (ts : List Transaction) (key : SortKey)
    (dir : SortDirection) (selectedCategory : Option String) : List Transaction :=
  (retainedTransactions ts selectedCategory).mergeSort (projLe key dir)

/-! ## Specification-side descriptions of the category breakdown -/

/-- The EXPENSE-type records of a transaction list. -/
def expenseTransactions (ts : List Transaction) : List Transaction :=
  ts.filter fun t => t.type == TransactionType.EXPENSE

/-- Sum of `amount` over the records of a list carrying a category. -/
def catSumOver (l : List Transaction) (c : String) : Int :=
  ((l.filter fun t => t.category == c).map fun t => t.amount).sum

/-- Sum of `amount` over the EXPENSE records with the given category. -/
def categorySum (ts : List Transaction) (c : String) : Int :=
  catSumOver (expenseTransactions ts) c

/-- The distinct elements of a list in first-encounter order. -/
def firstOccurrences : List String → List String
  | [] => []
  | c :: cs => c :: (firstOccurrences cs).filter fun d => d != c

/-- The distinct expense categories, in first-encounter order. -/
def distinctExpenseCategories (ts : List Transaction) : List String :=
  firstOccurrences ((expenseTransactions ts).map fun t => t.category)

/-- The order in which `Object.entries` yields the expense categories:
array-index-like labels first in ascending numeric order, the rest in
first-encounter order. -/
def entriesKeyOrder (ts : List Transaction) : List String :=
  ((distinctExpenseCategories ts).filter isArrayIndexKey).mergeSort
      (fun x y => decide (keyNat x ≤ keyNat y))
    ++ (distinctExpenseCategories ts).filter fun s => !isArrayIndexKey s

/-! ## The JSON import path (`readFileAsTransactions`, `src/App.tsx` 142–161) -/

/-- A loosely-typed JSON field value for `item.amount`. -/
inductive JVal where
  | num (v : Int)
  | str (s : String)
  | missing
deriving DecidableEq, Repr

/-- Value of a maximal leading digit run, `none` when there is none. -/
def digitsPrefixVal (cs : List Char) : Option Nat :=
  let ds := cs.takeWhile Char.isDigit
  if ds.isEmpty then none
  else some (ds.foldl (fun n c => 10 * n + (c.toNat - 48)) 0)

/-- JavaScript `parseFloat` on a string, restricted to the integer
fragment modelled here: optional leading spaces, an optional sign and a
maximal digit prefix (trailing garbage ignored); `none` models `NaN`. -/
def parseFloatStr (s : String) : Option Int :=
  match s.toList.dropWhile (fun c => c = ' ') with
  | '-' :: rest => (digitsPrefixVal rest).map (fun n => -(n : Int))
  | '+' :: rest => (digitsPrefixVal rest).map (fun n => (n : Int))
  | cs => (digitsPrefixVal cs).map (fun n => (n : Int))

/-- Coercion `parseFloat(item.amount)`: numbers parse to themselves, strings go
through `parseFloatStr`, an absent field is `NaN`. -/
def parseFloatJ : JVal → Option Int
  | .num v => some v
  | .str s => parseFloatStr s
  | .missing => none

/-- Fallback `x || 0` applied to a parse result: `NaN` becomes `0`; on exact
numbers the only falsy value `0` is already `0`. -/
def jsNumOr0 : Option Int → Int
  | none => 0
  | some v => v

/-- A loosely-typed imported record (every field optional). -/
structure RawItem where
  category : Option String
  amount : JVal
  date : Option String
  description : Option String
deriving DecidableEq, Repr

/-- Defaulting `v || d` for a string-or-absent field: absent and the empty string
are falsy. -/
def jsOrDefault (v : Option String) (d : String) : String :=
  match v with
  | none => d
  | some s => if s = "" then d else s

/-- Normalization of one imported record (`src/App.tsx` 149–156):
fresh id, caller-selected type, defaulted category/date/description,
`parseFloat(item.amount) || 0` as the amount. -/
def normalizeItem (ty : TransactionType) (id : String) (today : String)
    (item : RawItem) : Transaction :=
  { id := id
    type := ty
    category := jsOrDefault item.category "Outros"
    amount := jsNumOr0 (parseFloatJ item.amount)
    date := jsOrDefault item.date today
    description := jsOrDefault item.description "" }

/-- Parsed JSON file content: an array, or a single object wrapped by
`Array.isArray(json) ? json : [json]`. -/
inductive JsonTop where
  | arr (items : List RawItem)
  | single (item : RawItem)
deriving DecidableEq, Repr

def toItems : JsonTop → List RawItem
  | .arr l => l
  | .single x => [x]

/-- Import step `readFileAsTransactions`: a JSON-parse failure rejects, otherwise
every record is normalized.  `ids` supplies the fresh random ids by
record index, `today` the current date. -/
def readFileAsTransactions (ty : TransactionType) (ids : Nat → String)
    (today : String) (content : Except Unit JsonTop) :
    Except Unit (List Transaction) :=
  match content with
  | .error e => .error e
  | .ok top => .ok (jsMapIdx (fun i item => normalizeItem ty (ids i) today item) (toItems top))

/-- Whether a selected file (if any) parses. -/
def fileOk : Option (Except Unit JsonTop) → Bool
  | none => true
  | some (.ok _) => true
  | some (.error _) => false

/-- The transactions a selected file contributes on success. -/
def filePayload (ty : TransactionType) (ids : Nat → String) (today : String) :
    Option (Except Unit JsonTop) → List Transaction
  | none => []
  | some c =>
    match readFileAsTransactions ty ids today c with
    | .ok l => l
    | .error _ => []

/-- Operation `handleExecuteImport` (`src/App.tsx` 120–140): nothing happens when
no file is selected; otherwise the income file then the expense file are
read inside one `try`, and only after both succeed is the transaction
list replaced; a parse rejection reaches `catch`, surfaces an alert
(second component) and leaves the prior list untouched. -/
def handleExecuteImport (prior : List Transaction)
    (incomeFile expenseFile : Option (Except Unit JsonTop))
    (ids1 ids2 : Nat → String) (today : String) :
    List Transaction × Bool :=
  match incomeFile, expenseFile with
  | none, none => (prior, false)
  | _, _ =>
    let incRes : Except Unit (List Transaction) :=
      match incomeFile with
      | none => .ok []
      | some c => readFileAsTransactions .INCOME ids1 today c
    match incRes with
    | .error _ => (prior, true)
    | .ok incData =>
      let expRes : Except Unit (List Transaction) :=
        match expenseFile with
        | none => .ok []
        | some c => readFileAsTransactions .EXPENSE ids2 today c
      match expRes with
      | .error _ => (prior, true)
      | .ok expData => (incData ++ expData, false)

/-! ## The insight payload (`getFinancialInsights`, `services/geminiService.ts`) -/

/-- JSON string escaping (backslash and quote; the double-quoted
printable fragment suffices for the fields serialized here). -/
def jsonEscapeChar (c : Char) : String :=
  if c = '\\' then "\\\\"
  else if c = '"' then "\\\""
  else String.singleton c

def jsonEscape (s : String) : String :=
  s.foldl (fun acc c => acc ++ jsonEscapeChar c) ""

/-- Serialization by `JSON.stringify` of one summary element
`{ type, amount, category, date }` built from a transaction. -/
def summaryItem (t : Transaction) : String :=
  "\x7b\"type\":\"" ++ jsonEscape (typeStr t.type)
    ++ "\",\"amount\":" ++ toString t.amount
    ++ ",\"category\":\"" ++ jsonEscape t.category
    ++ "\",\"date\":\"" ++ jsonEscape t.date ++ "\"\x7d"

/-- The serialized summary embedded in the prompt:
`JSON.stringify(transactions.slice(0, 50).map(t => ({type, amount, category, date})))`. -/
def serializedSummary (ts : List Transaction) : String :=
  "[" ++ String.intercalate "," ((ts.take 50).map summaryItem) ++ "]"

/-! ## Cascading category deletion (`handleDeleteCategory`, variant `src/unnamed/part_002` 249–255) -/

/-- The confirmed branch of `handleDeleteCategory` in the cascading
variant: the category is removed from the category list and every
referencing transaction is moved to `'Uncategorized'`. -/
def handleDeleteCategory (cat : String) (categories : List String)
    (ts : List Transaction) : List String × List Transaction :=
  (categories.filter (fun c => c != cat),
   ts.map (fun t => if t.category = cat then { t with category := "Uncategorized" } else t))

/-- Placeholder raw record used only as the default of `List.getD`. -/
def dummyRawItem : RawItem :=
  { category := none, amount := .missing, date := none, description := none }

/-- Placeholder record used only as the default of `List.getD`. -/
def dummyTransaction : Transaction :=
  { id := "", type := .EXPENSE, category := "", amount := 0, date := "", description := "" }

/-- The strict "key of `b` below key of `a`" relation used to pin down a
descending run with pairwise-distinct keys. -/
def keyStrictGt (k : SortKey) (a b : Transaction) : Prop :=
  fvLt (fieldVal k b) (fieldVal k a) = true

/-! ## Facts about the indexed map -/

theorem jsMapIdxFrom_length (f : Nat → α → β) (i : Nat) (l : List α) :
    (jsMapIdxFrom f i l).length = l.length := by
  induction l generalizing i with
  | nil => rfl
  | cons x xs ih => simp [jsMapIdxFrom, ih]

@[simp] theorem jsMapIdx_length (f : Nat → α → β) (l : List α) :
    (jsMapIdx f l).length = l.length :=
  jsMapIdxFrom_length f 0 l

theorem jsMapIdxFrom_getElem (f : Nat → α → β) (i : Nat) (l : List α)
    (j : Nat) (hj : j < (jsMapIdxFrom f i l).length) :
    (jsMapIdxFrom f i l)[j]
      = f (i + j) (l.get ⟨j, by simpa [jsMapIdxFrom_length] using hj⟩) := by
  induction l generalizing i j with
  | nil => simp [jsMapIdxFrom_length] at hj
  | cons x xs ih =>
    cases j with
    | zero => simp [jsMapIdxFrom]
    | succ j =>
      have hj' : j < (jsMapIdxFrom f (i + 1) xs).length := by
        simpa [jsMapIdxFrom, jsMapIdxFrom_length] using Nat.lt_of_succ_lt_succ
          (by simpa [jsMapIdxFrom, jsMapIdxFrom_length] using hj)
      simp only [jsMapIdxFrom, List.getElem_cons_succ]
      rw [ih (i + 1) j hj']
      simp only [List.get_eq_getElem, List.getElem_cons_succ]
      congr 1
      omega

theorem jsMapIdx_getElem (f : Nat → α → β) (l : List α)
    (j : Nat) (hj : j < (jsMapIdx f l).length) :
    (jsMapIdx f l)[j] = f j (l.get ⟨j, by simpa using hj⟩) := by
  have := jsMapIdxFrom_getElem f 0 l j hj
  simpa [jsMapIdx] using this

theorem jsMapIdxFrom_map_proj (f : Nat → α → β) (g : β → α)
    (hg : ∀ i x, g (f i x) = x) (i : Nat) (l : List α) :
    (jsMapIdxFrom f i l).map g = l := by
  induction l generalizing i with
  | nil => rfl
  | cons x xs ih => simp [jsMapIdxFrom, hg, ih]

/-- Projecting away the index-dependent part of a `jsMapIdx` recovers the list. -/
theorem jsMapIdx_map_proj (f : Nat → α → β) (g : β → α)
    (hg : ∀ i x, g (f i x) = x) (l : List α) :
    (jsMapIdx f l).map g = l :=
  jsMapIdxFrom_map_proj f g hg 0 l

/-! ### Order facts about the comparator -/

theorem fvLt_asymm : ∀ {x y : FieldVal}, fvLt x y = true → fvLt y x = false
  | .s a, .s b, h => by
    simp only [fvLt, decide_eq_true_eq] at h
    simp only [fvLt, decide_eq_false_iff_not, not_lt]
    exact le_of_lt h
  | .n a, .n b, h => by
    simp only [fvLt, decide_eq_true_eq] at h
    simp only [fvLt, decide_eq_false_iff_not, not_lt]
    exact le_of_lt h
  | .s _, .n _, h => by simp [fvLt] at h
  | .n _, .s _, h => by simp [fvLt] at h

/-- The comparator is total: for every key and direction one of the two
orientations is allowed. -/
theorem projLe_total (k : SortKey) (dir : SortDirection) (a b : Transaction) :
    (projLe k dir a b || projLe k dir b a) = true := by
  rcases dir
  · cases h : fvLt (fieldVal k b) (fieldVal k a)
    · simp [projLe, h]
    · simp [projLe, h, fvLt_asymm h]
  · cases h : fvLt (fieldVal k a) (fieldVal k b)
    · simp [projLe, h]
    · simp [projLe, h, fvLt_asymm h]

theorem notLt_trans {γ : Type} [LinearOrder γ] {x y z : γ}
    (h₁ : ¬ y < x) (h₂ : ¬ z < y) : ¬ z < x :=
  fun h => h₁ (lt_of_le_of_lt (le_of_not_lt h₂) h)

/-- The comparator is transitive: for a fixed key both compared values
have the same shape, where `¬ <` is transitive. -/
theorem projLe_trans (k : SortKey) (dir : SortDirection) (a b c : Transaction)
    (h₁ : projLe k dir a b = true) (h₂ : projLe k dir b c = true) :
    projLe k dir a c = true := by
  rcases dir <;> cases k <;>
    simp only [projLe, fieldVal, fvLt, Bool.not_eq_true', decide_eq_false_iff_not]
      at h₁ h₂ ⊢ <;>
    first
      | exact notLt_trans h₁ h₂
      | exact notLt_trans h₂ h₁

/-- With a fixed key, distinct comparable values are strictly ordered. -/
theorem fieldLt_of_not_lt_of_ne (k : SortKey) (a b : Transaction)
    (h : fvLt (fieldVal k b) (fieldVal k a) = false)
    (hne : fieldVal k a ≠ fieldVal k b) :
    fvLt (fieldVal k a) (fieldVal k b) = true := by
  cases k <;>
    simp only [fieldVal, fvLt, decide_eq_false_iff_not, not_lt, decide_eq_true_eq,
      ne_eq, FieldVal.s.injEq, FieldVal.n.injEq] at h hne ⊢ <;>
    exact lt_of_le_of_ne h hne

/-! ## C8: the projection neither mutates nor invents records -/

/-- C8: the projection never changes the input (the source copies the
array before sorting; in this pure model the input is untouched by
construction), and its output is a permutation of the records retained by
the filter step, every one of them a record of the input, unmodified. -/
theorem sortedAndFiltered_perm_retained (ts : List Transaction) (k : SortKey)
    (dir : SortDirection) (sel : Option String) :
    (sortedAndFilteredTransactions ts k dir sel).Perm (retainedTransactions ts sel)
      ∧ ∀ t ∈ sortedAndFilteredTransactions ts k dir sel, t ∈ ts := by
  refine ⟨List.mergeSort_perm _ _, fun t ht => ?_⟩
  have ht' : t ∈ retainedTransactions ts sel :=
    (List.mergeSort_perm (retainedTransactions ts sel) (projLe k dir)).mem_iff.mp ht
  rcases sel with _ | c
  · exact ht'
  · simp only [retainedTransactions] at ht'
    split at ht'
    · exact ht'
    · exact List.mem_of_mem_filter ht'

/-! ## C5: category filtering -/

/-- C5 (amended): for every *non-empty* present category filter the
projection contains only records whose category equals the filter, is a
sub-multiset of the unfiltered projection, and is empty when no record
carries the filtered category.  (A present but *empty-string* filter is
falsy in the source's `if (selectedCategory)` guard and filters nothing —
see the counterexample.) -/
theorem sortedAndFiltered_filter_spec (ts : List Transaction) (k : SortKey)
    (dir : SortDirection) (c : String) (hc : c ≠ "") :
    (∀ t ∈ sortedAndFilteredTransactions ts k dir (some c), t.category = c)
      ∧ (sortedAndFilteredTransactions ts k dir (some c)).Subperm
          (sortedAndFilteredTransactions ts k dir none)
      ∧ (c ∉ ts.map (fun t => t.category) →
          sortedAndFilteredTransactions ts k dir (some c) = []) := by
  have hret : retainedTransactions ts (some c) = ts.filter fun t => t.category == c := by
    simp [retainedTransactions, hc]
  refine ⟨fun t ht => ?_, ?_, fun hnc => ?_⟩
  · have ht' : t ∈ retainedTransactions ts (some c) :=
      (List.mergeSort_perm _ _).mem_iff.mp ht
    rw [hret] at ht'
    simpa using (List.mem_filter.mp ht').2
  · have h₁ : (sortedAndFilteredTransactions ts k dir (some c)).Perm
        (ts.filter fun t => t.category == c) := by
      rw [sortedAndFilteredTransactions, hret]; exact List.mergeSort_perm _ _
    have h₂ : (ts.filter fun t => t.category == c).Subperm ts :=
      (List.filter_sublist ts).subperm
    have h₃ : ts.Subperm (sortedAndFilteredTransactions ts k dir none) :=
      ((List.mergeSort_perm (retainedTransactions ts none) (projLe k dir)).symm).subperm
    exact (h₁.subperm.trans h₂).trans h₃
  · have hfil : ts.filter (fun t => t.category == c) = [] := by
      rw [List.filter_eq_nil_iff]
      intro t ht hcat
      exact hnc (List.mem_map.mpr ⟨t, ht, by simpa using hcat⟩)
    rw [sortedAndFilteredTransactions, hret, hfil]
    simp [List.mergeSort]

/-- Witness for C5 at a concrete input. -/
theorem sortedAndFiltered_filter_spec_witness :
    (⟨"t1", .EXPENSE, "A", 5, "2024-01-01", ""⟩ : Transaction).category = "A"
      ∧ sortedAndFilteredTransactions
          [⟨"t1", .EXPENSE, "A", 5, "2024-01-01", ""⟩, ⟨"t2", .INCOME, "B", 3, "2024-01-02", ""⟩]
          SortKey.date SortDirection.desc (some "Z") = [] := by
  have h := sortedAndFiltered_filter_spec
    [⟨"t1", .EXPENSE, "A", 5, "2024-01-01", ""⟩, ⟨"t2", .INCOME, "B", 3, "2024-01-02", ""⟩]
    SortKey.date SortDirection.desc "A" (by decide)
  have h' := sortedAndFiltered_filter_spec
    [⟨"t1", .EXPENSE, "A", 5, "2024-01-01", ""⟩, ⟨"t2", .INCOME, "B", 3, "2024-01-02", ""⟩]
    SortKey.date SortDirection.desc "Z" (by decide)
  refine ⟨h.1 ⟨"t1", .EXPENSE, "A", 5, "2024-01-01", ""⟩ ?_, h'.2.2 (by decide)⟩
  simp [sortedAndFilteredTransactions, retainedTransactions, List.mergeSort]

/-- Counterexample to C5 as stated: the empty string is a present filter
value, yet `if (selectedCategory)` treats it as falsy and filters nothing,
so the projection returns a record whose category is not the filter value. -/
theorem sortedAndFiltered_empty_filter_cex :
    sortedAndFilteredTransactions [⟨"t1", .EXPENSE, "A", 5, "2024-01-01", ""⟩]
        SortKey.date SortDirection.desc (some "")
      = [⟨"t1", .EXPENSE, "A", 5, "2024-01-01", ""⟩]
      ∧ ("A" : String) ≠ "" := by
  constructor
  · simp [sortedAndFilteredTransactions, retainedTransactions, List.mergeSort]
  · decide

/-! ### Shared facts about pairs inside lists -/

theorem pair_sublist_or {α : Type} {a b : α} {l : List α}
    (ha : a ∈ l) (hb : b ∈ l) (hne : a ≠ b) :
    ([a, b].Sublist l) ∨ ([b, a].Sublist l) := by
  induction l with
  | nil => cases ha
  | cons x xs ih =>
    rcases List.mem_cons.mp ha with rfl | ha'
    · have hb' : b ∈ xs := by
        rcases List.mem_cons.mp hb with rfl | hb'
        · exact absurd rfl hne
        · exact hb'
      exact Or.inl (List.Sublist.cons₂ a (List.singleton_sublist.mpr hb'))
    · rcases List.mem_cons.mp hb with rfl | hb'
      · exact Or.inr (List.Sublist.cons₂ b (List.singleton_sublist.mpr ha'))
      · rcases ih ha' hb' with h | h
        · exact Or.inl (List.Sublist.cons x h)
        · exact Or.inr (List.Sublist.cons x h)

theorem indexOf_lt_of_pair_sublist {α : Type} [DecidableEq α] {a b : α} {l : List α}
    (hnd : l.Nodup) (h : [a, b].Sublist l) : l.indexOf a < l.indexOf b := by
  induction l with
  | nil => cases h
  | cons x xs ih =>
    rcases List.nodup_cons.mp hnd with ⟨hx, hxs⟩
    cases h with
    | cons _ h' =>
      have ha : a ∈ xs := (List.Sublist.subset h') (by simp)
      have hb : b ∈ xs := (List.Sublist.subset h') (by simp)
      have hax : x ≠ a := fun e => hx (e ▸ ha)
      have hbx : x ≠ b := fun e => hx (e ▸ hb)
      rw [List.indexOf_cons_ne _ hax, List.indexOf_cons_ne _ hbx]
      exact Nat.succ_lt_succ (ih hxs h')
    | cons₂ _ h' =>
      have hb : b ∈ xs := (List.Sublist.subset h') (by simp)
      have hbx : a ≠ b := fun e => hx (by rw [e]; exact hb)
      rw [List.indexOf_cons_self, List.indexOf_cons_ne _ hbx]
      exact Nat.succ_pos _

/-- Two orders of the same distinct pair cannot both be sublists of a
duplicate-free list. -/
theorem not_pair_sublist_both {α : Type} [DecidableEq α] {a b : α} {l : List α}
    (hnd : l.Nodup) (h₁ : [a, b].Sublist l) (h₂ : [b, a].Sublist l) : False :=
  Nat.lt_irrefl _ ((indexOf_lt_of_pair_sublist hnd h₁).trans
    (indexOf_lt_of_pair_sublist hnd h₂))

/-! ## C4: ascending projection reversed versus descending projection -/

/-- C4 (amended): when the retained records carry pairwise-distinct
values at the sort key, the projection sorted ascending and then reversed
equals the projection sorted descending.  (With equal keys the two sides
differ: both directions sort stably, so reversal flips the tie order —
see the counterexample.) -/
theorem proj_asc_reverse_eq_desc (ts : List Transaction) (k : SortKey)
    (sel : Option String)
    (h : ((retainedTransactions ts sel).map (fieldVal k)).Nodup) :
    (sortedAndFilteredTransactions ts k SortDirection.asc sel).reverse
      = sortedAndFilteredTransactions ts k SortDirection.desc sel := by
  classical
  haveI : IsAntisymm Transaction (keyStrictGt k) := by
    refine ⟨fun a b hab hba => ?_⟩
    have hf := fvLt_asymm hab
    rw [hba] at hf
    cases hf
  have strictify : ∀ L : List Transaction, (L.map (fieldVal k)).Nodup →
      L.Pairwise (fun a b => fvLt (fieldVal k a) (fieldVal k b) = false) →
      L.Pairwise (keyStrictGt k) := by
    intro L hnd hp
    rw [List.pairwise_iff_forall_sublist] at hp ⊢
    intro a b hs
    have hmap : [fieldVal k a, fieldVal k b].Sublist (L.map (fieldVal k)) := by
      simpa using hs.map (fieldVal k)
    have hpairnd : ([fieldVal k a, fieldVal k b] : List FieldVal).Nodup :=
      List.Nodup.sublist hmap hnd
    have hne : fieldVal k a ≠ fieldVal k b := by
      simpa using (List.nodup_cons.mp hpairnd).1
    exact fieldLt_of_not_lt_of_ne k b a (hp hs) (fun e => hne e.symm)
  have permA : ((retainedTransactions ts sel).mergeSort (projLe k SortDirection.asc)).Perm
      (retainedTransactions ts sel) := List.mergeSort_perm _ _
  have permD : ((retainedTransactions ts sel).mergeSort (projLe k SortDirection.desc)).Perm
      (retainedTransactions ts sel) := List.mergeSort_perm _ _
  have sortedA := List.sorted_mergeSort
    (fun a b c => projLe_trans k SortDirection.asc a b c)
    (fun a b => by simpa using projLe_total k SortDirection.asc a b)
    (retainedTransactions ts sel)
  have sortedD := List.sorted_mergeSort
    (fun a b c => projLe_trans k SortDirection.desc a b c)
    (fun a b => by simpa using projLe_total k SortDirection.desc a b)
    (retainedTransactions ts sel)
  have weakArev :
      ((retainedTransactions ts sel).mergeSort (projLe k SortDirection.asc)).reverse.Pairwise
        (fun a b => fvLt (fieldVal k a) (fieldVal k b) = false) := by
    rw [List.pairwise_reverse]
    exact sortedA.imp (fun hab => by
      simpa [projLe, Bool.not_eq_true'] using hab)
  have weakD :
      ((retainedTransactions ts sel).mergeSort (projLe k SortDirection.desc)).Pairwise
        (fun a b => fvLt (fieldVal k a) (fieldVal k b) = false) :=
    sortedD.imp (fun hab => by
      simpa [projLe, Bool.not_eq_true'] using hab)
  have ndArev :
      (((retainedTransactions ts sel).mergeSort (projLe k SortDirection.asc)).reverse.map
        (fieldVal k)).Nodup := by
    refine (List.Perm.nodup_iff (List.Perm.map (fieldVal k) ?_)).mpr h
    exact (List.reverse_perm _).trans permA
  have ndD :
      (((retainedTransactions ts sel).mergeSort (projLe k SortDirection.desc)).map
        (fieldVal k)).Nodup :=
    (List.Perm.nodup_iff (List.Perm.map (fieldVal k) permD)).mpr h
  have permAD :
      (((retainedTransactions ts sel).mergeSort (projLe k SortDirection.asc)).reverse).Perm
        ((retainedTransactions ts sel).mergeSort (projLe k SortDirection.desc)) :=
    ((List.reverse_perm _).trans permA).trans permD.symm
  exact List.eq_of_perm_of_sorted permAD (strictify _ ndArev weakArev) (strictify _ ndD weakD)

/-- Witness for C4 at a concrete input with distinct dates. -/
theorem proj_asc_reverse_eq_desc_witness :
    (sortedAndFilteredTransactions
        [⟨"a", .EXPENSE, "C", 1, "2024-01-02", "d1"⟩, ⟨"b", .EXPENSE, "C", 2, "2024-01-01", "d2"⟩]
        SortKey.date SortDirection.asc none).reverse
      = sortedAndFilteredTransactions
        [⟨"a", .EXPENSE, "C", 1, "2024-01-02", "d1"⟩, ⟨"b", .EXPENSE, "C", 2, "2024-01-01", "d2"⟩]
        SortKey.date SortDirection.desc none :=
  proj_asc_reverse_eq_desc _ SortKey.date none (by decide)

/-- Counterexample to C4 as stated: two records share the sort key
(`date`); the stable ascending sort keeps them in input order, reversal
flips them, yet the stable descending sort also keeps input order. -/
theorem proj_asc_reverse_ne_desc_cex :
    ¬ ((sortedAndFilteredTransactions
          [⟨"a", .EXPENSE, "C", 1, "2024-01-01", "d1"⟩, ⟨"b", .EXPENSE, "C", 2, "2024-01-01", "d2"⟩]
          SortKey.date SortDirection.asc none).reverse
        = sortedAndFilteredTransactions
          [⟨"a", .EXPENSE, "C", 1, "2024-01-01", "d1"⟩, ⟨"b", .EXPENSE, "C", 2, "2024-01-01", "d2"⟩]
          SortKey.date SortDirection.desc none) := by
  simp only [sortedAndFilteredTransactions, retainedTransactions]
  simp [List.mergeSort, List.splitInTwo, List.splitAt, List.splitAt.go, List.merge,
    projLe, fieldVal, fvLt]

/-- Witness for C8 at a concrete input. -/
theorem sortedAndFiltered_perm_retained_witness :
    (⟨"t1", .EXPENSE, "A", 5, "2024-01-01", ""⟩ : Transaction)
      ∈ [(⟨"t1", .EXPENSE, "A", 5, "2024-01-01", ""⟩ : Transaction)] :=
  (sortedAndFiltered_perm_retained [⟨"t1", .EXPENSE, "A", 5, "2024-01-01", ""⟩]
      SortKey.amount SortDirection.asc none).2
    ⟨"t1", .EXPENSE, "A", 5, "2024-01-01", ""⟩
    (by simp [sortedAndFilteredTransactions, retainedTransactions, List.mergeSort])

/-! ## C1: totals -/

theorem foldl_add_amount (l : List Transaction) (a : Int) :
    l.foldl (fun sum t => sum + t.amount) a = a + (l.map (fun t => t.amount)).sum := by
  induction l generalizing a with
  | nil => simp
  | cons x xs ih =>
    simp only [List.foldl_cons, List.map_cons, List.sum_cons, ih]
    omega

/-- C1: for every transaction list, `computeStats` returns `totalIncome`
equal to the sum of `amount` over exactly the INCOME records,
`totalExpenses` equal to the sum of `amount` over exactly the EXPENSE
records, and `balance = totalIncome - totalExpenses` (an integer, possibly
negative); on the empty list all three are zero. -/
theorem computeStats_totals (ts : List Transaction) :
    (computeStats ts).totalIncome
        = ((ts.filter fun t => t.type == TransactionType.INCOME).map
            (fun t => t.amount)).sum
      ∧ (computeStats ts).totalExpenses
        = ((ts.filter fun t => t.type == TransactionType.EXPENSE).map
            (fun t => t.amount)).sum
      ∧ (computeStats ts).balance
        = (computeStats ts).totalIncome - (computeStats ts).totalExpenses
      ∧ (computeStats []).totalIncome = 0
      ∧ (computeStats []).totalExpenses = 0
      ∧ (computeStats []).balance = 0 := by
  refine ⟨?_, ?_, ?_, rfl, rfl, rfl⟩
  · simp [computeStats, foldl_add_amount]
  · simp [computeStats, foldl_add_amount]
  · rfl

/-! ## C2 groundwork: the expense map realizes the per-category sums -/

theorem mem_firstOccurrences {c : String} : ∀ {l : List String},
    c ∈ firstOccurrences l ↔ c ∈ l := by
  intro l
  induction l with
  | nil => simp [firstOccurrences]
  | cons x xs ih =>
    by_cases hcx : c = x
    · subst hcx; simp [firstOccurrences]
    · simp only [firstOccurrences, List.mem_cons, List.mem_filter, bne_iff_ne, ne_eq, ih]
      constructor
      · rintro (rfl | ⟨hc, -⟩)
        · exact Or.inl rfl
        · exact Or.inr hc
      · rintro (rfl | hc)
        · exact Or.inl rfl
        · exact Or.inr ⟨hc, by simpa using hcx⟩

theorem nodup_firstOccurrences : ∀ (l : List String), (firstOccurrences l).Nodup := by
  intro l
  induction l with
  | nil => simp [firstOccurrences]
  | cons x xs ih =>
    rw [firstOccurrences, List.nodup_cons]
    refine ⟨fun hx => ?_, List.Nodup.filter _ ih⟩
    simp [List.mem_filter] at hx

theorem firstOccurrences_append_singleton (l : List String) (c : String) :
    firstOccurrences (l ++ [c])
      = if c ∈ l then firstOccurrences l else firstOccurrences l ++ [c] := by
  induction l with
  | nil => simp [firstOccurrences]
  | cons x xs ih =>
    simp only [List.cons_append, firstOccurrences, List.append_eq]
    by_cases hc : c ∈ xs
    · rw [ih, if_pos hc, if_pos (List.mem_cons.mpr (Or.inr hc))]
    · by_cases hcx : c = x
      · subst hcx
        rw [ih, if_neg hc, if_pos (List.mem_cons.mpr (Or.inl rfl)), List.filter_append]
        simp
      · rw [ih, if_neg hc, if_neg (by simp [hcx, hc]), List.filter_append]
        simp [hcx]

theorem catSumOver_append_singleton (l : List Transaction) (t : Transaction) (c : String) :
    catSumOver (l ++ [t]) c
      = catSumOver l c + (if t.category = c then t.amount else 0) := by
  by_cases h : t.category = c <;>
    simp [catSumOver, List.filter_append, h]

theorem catSumOver_eq_zero_of_not_mem (l : List Transaction) (c : String)
    (h : c ∉ l.map fun t => t.category) : catSumOver l c = 0 := by
  have : l.filter (fun t => t.category == c) = [] := by
    rw [List.filter_eq_nil_iff]
    intro t ht hc
    exact h (List.mem_map.mpr ⟨t, ht, by simpa using hc⟩)
  simp [catSumOver, this]

theorem mem_keys_iff_any (m : List (String × Int)) (c : String) :
    m.any (fun p => p.1 == c) = true ↔ c ∈ m.map Prod.fst := by
  rw [List.any_eq_true]
  constructor
  · rintro ⟨p, hp, hc⟩
    exact List.mem_map.mpr ⟨p, hp, by simpa using hc⟩
  · intro h
    rcases List.mem_map.mp h with ⟨p, hp, rfl⟩
    exact ⟨p, hp, by simp⟩

theorem expenseMapUpsert_keys_of_mem (m : List (String × Int)) (c : String) (a : Int)
    (h : c ∈ m.map Prod.fst) :
    (expenseMapUpsert m c a).map Prod.fst = m.map Prod.fst := by
  rw [expenseMapUpsert, if_pos ((mem_keys_iff_any m c).mpr h)]
  rw [List.map_map]
  congr 1
  funext p
  by_cases hp : p.1 = c <;> simp [hp]

theorem expenseMapUpsert_keys_of_not_mem (m : List (String × Int)) (c : String) (a : Int)
    (h : c ∉ m.map Prod.fst) :
    (expenseMapUpsert m c a).map Prod.fst = m.map Prod.fst ++ [c] := by
  rw [expenseMapUpsert, if_neg]
  · simp
  · intro hc
    exact h ((mem_keys_iff_any m c).mp hc)

/-- The `forEach` loop invariant: after processing `done`, the object's
keys are the categories of `done` in first-encounter order and each entry
holds the partial per-category sum. -/
theorem buildMap_fold_spec : ∀ (l : List Transaction) (m : List (String × Int))
    (done : List Transaction),
    m.map Prod.fst = firstOccurrences (done.map fun t => t.category) →
    (∀ e ∈ m, e.2 = catSumOver done e.1) →
    ((l.foldl (fun acc t => expenseMapUpsert acc t.category t.amount) m).map Prod.fst
        = firstOccurrences ((done ++ l).map fun t => t.category))
      ∧ ∀ e ∈ l.foldl (fun acc t => expenseMapUpsert acc t.category t.amount) m,
          e.2 = catSumOver (done ++ l) e.1 := by
  intro l
  induction l with
  | nil =>
    intro m done h1 h2
    rw [List.foldl_nil, List.append_nil]
    exact ⟨h1, h2⟩
  | cons t l ih =>
    intro m done h1 h2
    have hmemiff : t.category ∈ m.map Prod.fst ↔ t.category ∈ done.map (fun t => t.category) := by
      rw [h1, mem_firstOccurrences]
    have step1 : (expenseMapUpsert m t.category t.amount).map Prod.fst
        = firstOccurrences ((done ++ [t]).map fun t => t.category) := by
      simp only [List.map_append, List.map_cons, List.map_nil]
      rw [firstOccurrences_append_singleton]
      by_cases hmem : t.category ∈ m.map Prod.fst
      · rw [expenseMapUpsert_keys_of_mem m _ _ hmem, h1,
          if_pos (by simpa using hmemiff.mp hmem)]
      · rw [expenseMapUpsert_keys_of_not_mem m _ _ hmem, h1,
          if_neg (by simpa using fun hc => hmem (hmemiff.mpr hc))]
    have step2 : ∀ e ∈ expenseMapUpsert m t.category t.amount,
        e.2 = catSumOver (done ++ [t]) e.1 := by
      intro e he
      rw [expenseMapUpsert] at he
      by_cases hmem : t.category ∈ m.map Prod.fst
      · rw [if_pos ((mem_keys_iff_any m _).mpr hmem)] at he
        rcases List.mem_map.mp he with ⟨p, hp, rfl⟩
        by_cases hpc : p.1 = t.category
        · rw [if_pos hpc]
          simp only [catSumOver_append_singleton]
          rw [hpc, if_pos rfl, h2 p hp, hpc]
        · rw [if_neg hpc]
          rw [catSumOver_append_singleton, if_neg (fun e => hpc e.symm), h2 p hp]
          omega
      · rw [if_neg (fun hc => hmem ((mem_keys_iff_any m _).mp hc))] at he
        rcases List.mem_append.mp he with hold | hnew
        · have hne : e.1 ≠ t.category := by
            intro hc
            exact hmem (hc ▸ List.mem_map.mpr ⟨e, hold, rfl⟩)
          rw [catSumOver_append_singleton, if_neg (fun e' => hne e'.symm), h2 e hold]
          omega
        · have : e = (t.category, t.amount) := by simpa using hnew
          subst this
          rw [catSumOver_append_singleton, if_pos rfl,
            catSumOver_eq_zero_of_not_mem done _ (fun hc => hmem (hmemiff.mpr hc))]
          omega
    have := ih (expenseMapUpsert m t.category t.amount) (done ++ [t]) step1 step2
    rw [List.foldl_cons, show done ++ t :: l = (done ++ [t]) ++ l by simp]
    exact this

/-- The finished expense map: keys are the distinct expense categories in
first-encounter order, each entry holds that category's expense sum. -/
theorem buildExpenseMap_spec (ts : List Transaction) :
    (buildExpenseMap ts).map Prod.fst = distinctExpenseCategories ts
      ∧ ∀ e ∈ buildExpenseMap ts, e.2 = categorySum ts e.1 := by
  have h := buildMap_fold_spec (expenseTransactions ts) [] []
    (by simp [firstOccurrences]) (by simp)
  simpa [buildExpenseMap, expenseTransactions, distinctExpenseCategories, categorySum]
    using h

theorem map_fst_filter_fst (q : String → Bool) (m : List (String × Int)) :
    (m.filter fun p => q p.1).map Prod.fst = (m.map Prod.fst).filter q := by
  induction m with
  | nil => rfl
  | cons p m ih => by_cases hq : q p.1 <;> simp [hq, ih]

theorem valueDescLe_trans (x y z : String × Int)
    (h₁ : valueDescLe x y = true) (h₂ : valueDescLe y z = true) :
    valueDescLe x z = true := by
  simp only [valueDescLe, decide_eq_true_eq] at h₁ h₂ ⊢
  exact le_trans h₂ h₁

theorem valueDescLe_total (x y : String × Int) :
    (valueDescLe x y || valueDescLe y x) = true := by
  simp only [valueDescLe, Bool.or_eq_true, decide_eq_true_eq]
  exact le_total y.2 x.2

/-- C2 (amended): `expenseByCategory` groups exactly the EXPENSE records
by exact string equality of `category`, sums `amount` per group, is
sorted by summed value descending, keeps the first 10 groups, its length
is `min(distinct expense categories, 10)`, every omitted group's sum is
below every kept value, and ties are kept in the order `Object.entries`
enumerates the expense map — array-index-like category labels first in
ascending numeric order, the remaining labels in first-encounter order —
not in plain first-encounter order (see the counterexample). -/
theorem expenseByCategory_spec (ts : List Transaction) :
    (computeStats ts).expenseByCategory.length
        = min (distinctExpenseCategories ts).length 10
      ∧ ((computeStats ts).expenseByCategory.map fun e => e.name).Nodup
      ∧ (∀ e ∈ (computeStats ts).expenseByCategory,
          e.name ∈ distinctExpenseCategories ts ∧ e.value = categorySum ts e.name)
      ∧ ((computeStats ts).expenseByCategory.map fun e => (e.name, e.value)).Pairwise
          (fun x y => y.2 < x.2
            ∨ (x.2 = y.2
                ∧ (entriesKeyOrder ts).indexOf x.1 < (entriesKeyOrder ts).indexOf y.1))
      ∧ (∀ c ∈ distinctExpenseCategories ts,
          c ∉ ((computeStats ts).expenseByCategory.map fun e => e.name) →
          ∀ e ∈ (computeStats ts).expenseByCategory, categorySum ts c ≤ e.value) := by
  classical
  obtain ⟨hkeys, hvals⟩ := buildExpenseMap_spec ts
  have hpermEm : (jsObjectEntries (buildExpenseMap ts)).Perm (buildExpenseMap ts) := by
    have h1 := List.mergeSort_perm
      ((buildExpenseMap ts).filter fun p => isArrayIndexKey p.1)
      (fun p q => decide (keyNat p.1 ≤ keyNat q.1))
    have h2 := List.filter_append_perm (fun p => isArrayIndexKey p.1) (buildExpenseMap ts)
    exact (h1.append_right _).trans h2
  have hpermSm : ((jsObjectEntries (buildExpenseMap ts)).mergeSort valueDescLe).Perm
      (buildExpenseMap ts) :=
    (List.mergeSort_perm _ _).trans hpermEm
  have hmapfst : (jsObjectEntries (buildExpenseMap ts)).map Prod.fst
      = entriesKeyOrder ts := by
    rw [jsObjectEntries, List.map_append, entriesKeyOrder, ← hkeys]
    congr 1
    · have hms : (((buildExpenseMap ts).filter fun p => isArrayIndexKey p.1).mergeSort
            (fun p q => decide (keyNat p.1 ≤ keyNat q.1))).map Prod.fst
          = ((((buildExpenseMap ts).filter fun p => isArrayIndexKey p.1).map Prod.fst).mergeSort
            (fun x y => decide (keyNat x ≤ keyNat y))) :=
        List.map_mergeSort (fun a _ b _ => rfl)
      rw [hms, map_fst_filter_fst]
    · exact map_fst_filter_fst (fun s => !isArrayIndexKey s) (buildExpenseMap ts)
  have hndm : ((buildExpenseMap ts).map Prod.fst).Nodup := by
    rw [hkeys]; exact nodup_firstOccurrences _
  have hndE : ((jsObjectEntries (buildExpenseMap ts)).map Prod.fst).Nodup :=
    (List.Perm.nodup_iff (hpermEm.map Prod.fst)).mpr hndm
  have hndEl : (jsObjectEntries (buildExpenseMap ts)).Nodup := hndE.of_map
  have hndS : ((jsObjectEntries (buildExpenseMap ts)).mergeSort valueDescLe).Nodup :=
    (List.Perm.nodup_iff (List.mergeSort_perm _ _)).mpr hndEl
  have hndSfst : (((jsObjectEntries (buildExpenseMap ts)).mergeSort valueDescLe).map
      Prod.fst).Nodup :=
    (List.Perm.nodup_iff ((List.mergeSort_perm _ _).map Prod.fst)).mpr hndE
  have sortedS : ((jsObjectEntries (buildExpenseMap ts)).mergeSort valueDescLe).Pairwise
      (fun x y => valueDescLe x y = true) :=
    List.sorted_mergeSort (fun a b c h1 h2 => valueDescLe_trans a b c h1 h2)
      (fun a b => by simpa using valueDescLe_total a b)
      (jsObjectEntries (buildExpenseMap ts))
  have hproj : ((computeStats ts).expenseByCategory.map fun e => (e.name, e.value))
      = ((jsObjectEntries (buildExpenseMap ts)).mergeSort valueDescLe).take 10 :=
    jsMapIdx_map_proj _ _ (fun i x => rfl) _
  have hnames : ((computeStats ts).expenseByCategory.map fun e => e.name)
      = (((jsObjectEntries (buildExpenseMap ts)).mergeSort valueDescLe).take 10).map
          Prod.fst := by
    rw [← hproj, List.map_map]
    rfl
  refine ⟨?_, ?_, ?_, ?_, ?_⟩
  · show (jsMapIdx _ _).length = _
    rw [jsMapIdx_length, List.length_take, List.length_mergeSort, hpermEm.length_eq,
      Nat.min_comm]
    congr 1
    have := congrArg List.length hkeys
    simpa [List.length_map] using this
  · rw [hnames]
    exact List.Nodup.sublist ((List.take_sublist _ _).map Prod.fst) hndSfst
  · intro e he
    have hpair : (e.name, e.value)
        ∈ ((jsObjectEntries (buildExpenseMap ts)).mergeSort valueDescLe).take 10 := by
      rw [← hproj]; exact List.mem_map_of_mem _ he
    have hS := List.mem_of_mem_take hpair
    have hm : (e.name, e.value) ∈ buildExpenseMap ts := (hpermSm.mem_iff).mp hS
    constructor
    · rw [← hkeys]
      exact List.mem_map_of_mem Prod.fst hm
    · simpa using hvals _ hm
  · rw [hproj]
    refine List.Pairwise.sublist (List.take_sublist _ _) ?_
    rw [List.pairwise_iff_forall_sublist]
    intro x y hs
    have hle : y.2 ≤ x.2 := by
      have := (List.pairwise_iff_forall_sublist.mp sortedS) hs
      simpa [valueDescLe] using this
    rcases lt_or_eq_of_le hle with hlt | heq
    · exact Or.inl hlt
    · refine Or.inr ⟨heq.symm, ?_⟩
      have hxy : x ≠ y := by
        have hnd2 := List.Nodup.sublist hs hndS
        simpa using (List.nodup_cons.mp hnd2).1
      have hxE : x ∈ jsObjectEntries (buildExpenseMap ts) :=
        List.mem_mergeSort.mp (hs.subset (by simp))
      have hyE : y ∈ jsObjectEntries (buildExpenseMap ts) :=
        List.mem_mergeSort.mp (hs.subset (by simp))
      rcases pair_sublist_or hxE hyE hxy with hp | hp
      · have hmap : [x.1, y.1].Sublist
            ((jsObjectEntries (buildExpenseMap ts)).map Prod.fst) := by
          simpa using hp.map Prod.fst
        have := indexOf_lt_of_pair_sublist hndE hmap
        rwa [hmapfst] at this
      · have hyx : [y, x].Sublist
            ((jsObjectEntries (buildExpenseMap ts)).mergeSort valueDescLe) :=
          List.pair_sublist_mergeSort (fun a b c h1 h2 => valueDescLe_trans a b c h1 h2)
            (fun a b => by simpa using valueDescLe_total a b)
            (by simp [valueDescLe, heq]) hp
        exact (not_pair_sublist_both hndS hs hyx).elim
  · intro c hc hcn e he
    have hcm : c ∈ (buildExpenseMap ts).map Prod.fst := by rw [hkeys]; exact hc
    rcases List.mem_map.mp hcm with ⟨p, hpm, rfl⟩
    have hpS : p ∈ (jsObjectEntries (buildExpenseMap ts)).mergeSort valueDescLe :=
      (hpermSm.mem_iff).mpr hpm
    have hpT : p ∉ ((jsObjectEntries (buildExpenseMap ts)).mergeSort valueDescLe).take 10 := by
      intro hpT
      refine hcn ?_
      rw [hnames]
      exact List.mem_map_of_mem Prod.fst hpT
    have hdrop : p ∈ ((jsObjectEntries (buildExpenseMap ts)).mergeSort valueDescLe).drop 10 := by
      have hsplit : p ∈ ((jsObjectEntries (buildExpenseMap ts)).mergeSort valueDescLe).take 10
          ++ ((jsObjectEntries (buildExpenseMap ts)).mergeSort valueDescLe).drop 10 := by
        rw [List.take_append_drop]; exact hpS
      rcases List.mem_append.mp hsplit with h | h
      · exact absurd h hpT
      · exact h
    have hpair : (e.name, e.value)
        ∈ ((jsObjectEntries (buildExpenseMap ts)).mergeSort valueDescLe).take 10 := by
      rw [← hproj]; exact List.mem_map_of_mem _ he
    have hsorted2 := sortedS
    rw [← List.take_append_drop 10
      ((jsObjectEntries (buildExpenseMap ts)).mergeSort valueDescLe)] at hsorted2
    have hxp := (List.pairwise_append.mp hsorted2).2.2 _ hpair _ hdrop
    have hle : p.2 ≤ e.value := by simpa [valueDescLe] using hxp
    have hpc := hvals p hpm
    rw [← hpc]
    exact hle

/-- Witness for C2 at a concrete input. -/
theorem expenseByCategory_spec_witness :
    ((⟨"A", 5, "#6366f1"⟩ : CategorySummary).name
        ∈ distinctExpenseCategories [⟨"t1", .EXPENSE, "A", 5, "2024-01-01", ""⟩])
      ∧ (⟨"A", 5, "#6366f1"⟩ : CategorySummary).value
        = categorySum [⟨"t1", .EXPENSE, "A", 5, "2024-01-01", ""⟩]
            (⟨"A", 5, "#6366f1"⟩ : CategorySummary).name :=
  (expenseByCategory_spec [⟨"t1", .EXPENSE, "A", 5, "2024-01-01", ""⟩]).2.2.1
    ⟨"A", 5, "#6366f1"⟩
    (by simp [computeStats, expenseByCategoryOf, buildExpenseMap, expenseMapUpsert,
      jsObjectEntries, isArrayIndexKey, natOfDigits, keyNat, valueDescLe, jsMapIdx,
      jsMapIdxFrom, COLORS, List.mergeSort])

/-- Counterexample to C2 as stated: the two expense categories `"2"` and
`"1"` tie at value 5 and were first encountered in the order `"2"`, `"1"`,
but `Object.entries` enumerates array-index-like keys in ascending numeric
order, so the stable sort returns the tie as `"1"`, `"2"` — not in
first-encounter order. -/
theorem expenseByCategory_tie_order_cex :
    ((computeStats
        [⟨"a", .EXPENSE, "2", 5, "2024-01-01", ""⟩,
         ⟨"b", .EXPENSE, "1", 5, "2024-01-02", ""⟩]).expenseByCategory.map fun e => e.name)
        = ["1", "2"]
      ∧ distinctExpenseCategories
          [⟨"a", .EXPENSE, "2", 5, "2024-01-01", ""⟩,
           ⟨"b", .EXPENSE, "1", 5, "2024-01-02", ""⟩]
        = ["2", "1"]
      ∧ (["1", "2"] : List String) ≠ ["2", "1"] := by
  refine ⟨?_, ?_, by decide⟩
  · simp [computeStats, expenseByCategoryOf, buildExpenseMap, expenseMapUpsert,
      jsObjectEntries, isArrayIndexKey, natOfDigits, keyNat, valueDescLe, jsMapIdx,
      jsMapIdxFrom, COLORS, List.mergeSort, List.splitInTwo, List.splitAt,
      List.splitAt.go, List.merge]
  · simp [distinctExpenseCategories, expenseTransactions, firstOccurrences]

/-! ## C7: colour assignment by rank -/

/-- C7: the colour of the entry at rank `i` of `expenseByCategory` is the
palette colour at index `i mod 10`, a function of the rank alone. -/
theorem expenseByCategory_color (ts : List Transaction) (i : Nat)
    (h : i < (computeStats ts).expenseByCategory.length) :
    ((computeStats ts).expenseByCategory.get ⟨i, h⟩).color
      = COLORS.getD (i % 10) "" := by
  show ((jsMapIdx _ _).get ⟨i, h⟩).color = _
  rw [List.get_eq_getElem, jsMapIdx_getElem]
  rfl

/-- Witness for C7 at a concrete input. -/
theorem expenseByCategory_color_witness :
    ((computeStats [⟨"t1", .EXPENSE, "A", 5, "2024-01-01", ""⟩]).expenseByCategory.get
        ⟨0, by simp [computeStats, expenseByCategoryOf, buildExpenseMap, expenseMapUpsert,
          jsObjectEntries, isArrayIndexKey, natOfDigits, keyNat, valueDescLe,
          List.mergeSort]⟩).color
      = COLORS.getD (0 % 10) "" :=
  expenseByCategory_color [⟨"t1", .EXPENSE, "A", 5, "2024-01-01", ""⟩] 0 _

/-! ## C3: the import path's amount coercion -/

/-- Counterexample to C3 as stated: the source computes
`parseFloat(item.amount) || 0` with no absolute value, so a numeric
amount `-5` is imported as `-5`, not `|-5| = 5`. -/
theorem import_amount_not_abs_cex :
    (normalizeItem TransactionType.EXPENSE "id0" "2024-01-01"
        { category := none, amount := JVal.num (-5), date := none,
          description := none }).amount = -5
      ∧ ((-5 : Int) ≠ 5) := by
  exact ⟨rfl, by decide⟩

/-- C3 (amended): each imported record yields a transaction whose amount
is the record's parsed numeric value — possibly negative, with no
absolute value taken — or 0 when unparseable; the record at index `i`
also receives the `i`-th fresh id and the caller-selected type, and
importing `[{amount:"abc", date:"2024-02-01"}]` as EXPENSE yields amount
0, the `'Outros'` sentinel category, date `"2024-02-01"` and an empty
description. -/
theorem readFile_amount_spec (ty : TransactionType) (ids : Nat → String)
    (today : String) (items : List RawItem) (i : Nat) (h : i < items.length) :
    (∃ l, readFileAsTransactions ty ids today (.ok (.arr items)) = .ok l
      ∧ l.length = items.length
      ∧ (l.getD i dummyTransaction).amount
          = jsNumOr0 (parseFloatJ ((items.getD i dummyRawItem).amount))
      ∧ (l.getD i dummyTransaction).id = ids i
      ∧ (l.getD i dummyTransaction).type = ty)
    ∧ readFileAsTransactions TransactionType.EXPENSE ids today
        (.ok (.arr [{ category := none, amount := JVal.str "abc",
                      date := some "2024-02-01", description := none }]))
      = .ok [{ id := ids 0, type := TransactionType.EXPENSE, category := "Outros",
               amount := 0, date := "2024-02-01", description := "" }] := by
  constructor
  · refine ⟨jsMapIdx (fun j item => normalizeItem ty (ids j) today item) items,
      rfl, jsMapIdx_length _ _, ?_, ?_, ?_⟩
    · have hji : i < (jsMapIdx (fun j item => normalizeItem ty (ids j) today item)
          items).length := by simpa using h
      rw [List.getD_eq_getElem _ _ hji, List.getD_eq_getElem _ _ h, jsMapIdx_getElem]
      rfl
    · have hji : i < (jsMapIdx (fun j item => normalizeItem ty (ids j) today item)
          items).length := by simpa using h
      rw [List.getD_eq_getElem _ _ hji, jsMapIdx_getElem]
      rfl
    · have hji : i < (jsMapIdx (fun j item => normalizeItem ty (ids j) today item)
          items).length := by simpa using h
      rw [List.getD_eq_getElem _ _ hji, jsMapIdx_getElem]
      rfl
  · rfl

/-- Witness for C3 at a concrete input. -/
theorem readFile_amount_spec_witness :
    (∃ l, readFileAsTransactions TransactionType.EXPENSE (fun j => Nat.repr j) "2024-03-01"
        (.ok (.arr [{ category := none, amount := JVal.str "abc",
                      date := some "2024-02-01", description := none }]))
        = .ok l
      ∧ l.length = 1
      ∧ (l.getD 0 dummyTransaction).amount = jsNumOr0 (parseFloatJ (JVal.str "abc"))
      ∧ (l.getD 0 dummyTransaction).id = Nat.repr 0
      ∧ (l.getD 0 dummyTransaction).type = TransactionType.EXPENSE)
    ∧ readFileAsTransactions TransactionType.EXPENSE (fun j => Nat.repr j) "2024-03-01"
        (.ok (.arr [{ category := none, amount := JVal.str "abc",
                      date := some "2024-02-01", description := none }]))
      = .ok [{ id := Nat.repr 0, type := TransactionType.EXPENSE, category := "Outros",
               amount := 0, date := "2024-02-01", description := "" }] :=
  readFile_amount_spec TransactionType.EXPENSE (fun j => Nat.repr j) "2024-03-01"
    [{ category := none, amount := JVal.str "abc", date := some "2024-02-01",
       description := none }] 0 (by decide)

/-! ## C6: atomicity of the bulk import -/

/-- C6: with at least one file selected, the import either fully replaces
the prior transaction list with exactly the normalized contents of the
selected files (income file first) and shows no alert, or — on any
JSON-parse failure — leaves the prior list untouched and surfaces the
alert; with no file selected nothing happens.  No partial import exists. -/
theorem handleExecuteImport_atomic (prior : List Transaction)
    (f1 f2 : Option (Except Unit JsonTop)) (ids1 ids2 : Nat → String)
    (today : String) :
    (f1 = none ∧ f2 = none →
      handleExecuteImport prior f1 f2 ids1 ids2 today = (prior, false))
    ∧ ((f1 ≠ none ∨ f2 ≠ none) → fileOk f1 = true → fileOk f2 = true →
        handleExecuteImport prior f1 f2 ids1 ids2 today
          = (filePayload TransactionType.INCOME ids1 today f1
              ++ filePayload TransactionType.EXPENSE ids2 today f2, false))
    ∧ ((fileOk f1 = false ∨ fileOk f2 = false) →
        handleExecuteImport prior f1 f2 ids1 ids2 today = (prior, true)) := by
  rcases f1 with _ | c1 <;> rcases f2 with _ | c2
  · exact ⟨fun _ => rfl, fun hne _ _ => by simp at hne, fun hbad => by
      simp [fileOk] at hbad⟩
  · rcases c2 with e2 | t2
    · exact ⟨fun hc => by simp at hc, fun _ _ hok => by simp [fileOk] at hok,
        fun _ => rfl⟩
    · exact ⟨fun hc => by simp at hc, fun _ _ _ => rfl, fun hbad => by
        simp [fileOk] at hbad⟩
  · rcases c1 with e1 | t1
    · exact ⟨fun hc => by simp at hc, fun _ hok _ => by simp [fileOk] at hok,
        fun _ => rfl⟩
    · exact ⟨fun hc => by simp at hc, fun _ _ _ => rfl, fun hbad => by
        simp [fileOk] at hbad⟩
  · rcases c1 with e1 | t1
    · exact ⟨fun hc => by simp at hc, fun _ hok _ => by simp [fileOk] at hok,
        fun _ => rfl⟩
    · rcases c2 with e2 | t2
      · exact ⟨fun hc => by simp at hc, fun _ _ hok => by simp [fileOk] at hok,
          fun _ => rfl⟩
      · exact ⟨fun hc => by simp at hc, fun _ _ _ => rfl, fun hbad => by
          simp [fileOk] at hbad⟩

/-- Witness for C6 at concrete inputs: a successful import replaces the
list, a parse failure keeps it and alerts, no selection changes nothing. -/
theorem handleExecuteImport_atomic_witness :
    handleExecuteImport [dummyTransaction] none none (fun _ => "i") (fun _ => "e") "d"
        = ([dummyTransaction], false)
      ∧ handleExecuteImport [dummyTransaction]
          (some (.ok (.arr [{ category := some "Food", amount := JVal.num 7,
                              date := some "2024-02-02", description := none }]))) none
          (fun _ => "i") (fun _ => "e") "d"
        = ([{ id := "i", type := TransactionType.INCOME, category := "Food",
              amount := 7, date := "2024-02-02", description := "" }], false)
      ∧ handleExecuteImport [dummyTransaction] (some (.error ())) none
          (fun _ => "i") (fun _ => "e") "d"
        = ([dummyTransaction], true) := by
  refine ⟨(handleExecuteImport_atomic [dummyTransaction] none none _ _ "d").1
    ⟨rfl, rfl⟩, ?_, ?_⟩
  · have h := (handleExecuteImport_atomic [dummyTransaction]
      (some (.ok (.arr [{ category := some "Food", amount := JVal.num 7,
                          date := some "2024-02-02", description := none }]))) none
      (fun _ => "i") (fun _ => "e") "d").2.1 (Or.inl (by simp)) rfl rfl
    simpa [filePayload, readFileAsTransactions, jsMapIdx, jsMapIdxFrom,
      normalizeItem, jsOrDefault, jsNumOr0, parseFloatJ] using h
  · exact (handleExecuteImport_atomic [dummyTransaction] (some (.error ())) none
      (fun _ => "i") (fun _ => "e") "d").2.2 (Or.inl rfl)

/-! ## C9: the insight payload withholds `description` and `id` -/

/-- C9: the serialized summary sent to the insight generator depends only
on the `type`, `amount`, `category` and `date` fields of the first 50
transactions: two equally long lists agreeing pointwise on those four
fields below index 50 produce the identical serialized payload. -/
theorem serializedSummary_depends_only_on_four_fields (ts1 ts2 : List Transaction)
    (hlen : ts1.length = ts2.length)
    (hagree : ∀ i, i < 50 →
      (ts1.getD i dummyTransaction).type = (ts2.getD i dummyTransaction).type
      ∧ (ts1.getD i dummyTransaction).amount = (ts2.getD i dummyTransaction).amount
      ∧ (ts1.getD i dummyTransaction).category = (ts2.getD i dummyTransaction).category
      ∧ (ts1.getD i dummyTransaction).date = (ts2.getD i dummyTransaction).date) :
    serializedSummary ts1 = serializedSummary ts2 := by
  have hmap : (ts1.take 50).map summaryItem = (ts2.take 50).map summaryItem := by
    apply List.ext_getElem
    · simp [hlen]
    · intro i h1 h2
      have hi50 : i < 50 := by
        simp only [List.length_map, List.length_take] at h1
        omega

      have hi1 : i < ts1.length := by
        simp only [List.length_map, List.length_take] at h1
        omega
      have hi2 : i < ts2.length := by omega
      obtain ⟨ht, ha, hc, hd⟩ := hagree i hi50
      rw [List.getD_eq_getElem _ _ hi1, List.getD_eq_getElem _ _ hi2] at ht ha hc hd
      simp only [List.getElem_map, List.getElem_take]
      rw [summaryItem, summaryItem, ht, ha, hc, hd]
  rw [serializedSummary, serializedSummary, hmap]

/-- Witness for C9: two singleton lists differing only in `id` and
`description` serialize identically. -/
theorem serializedSummary_witness :
    serializedSummary [⟨"idA", .EXPENSE, "Food", 7, "2024-02-02", "lunch"⟩]
      = serializedSummary [⟨"idB", .EXPENSE, "Food", 7, "2024-02-02", "dinner"⟩] :=
  serializedSummary_depends_only_on_four_fields
    [⟨"idA", .EXPENSE, "Food", 7, "2024-02-02", "lunch"⟩]
    [⟨"idB", .EXPENSE, "Food", 7, "2024-02-02", "dinner"⟩]
    rfl (by decide)

/-! ## C10: cascading category deletion -/

/-- C10: confirmed deletion of a category removes it from the category
list (keeping the other labels), keeps the transaction list's length, and
rewrites exactly the transactions carrying the deleted category to
`'Uncategorized'` while leaving id, type, amount, date and description of
every transaction unchanged. -/
theorem handleDeleteCategory_spec (cat : String) (cats : List String)
    (ts : List Transaction) :
    cat ∉ (handleDeleteCategory cat cats ts).1
      ∧ (∀ c ∈ cats, c ≠ cat → c ∈ (handleDeleteCategory cat cats ts).1)
      ∧ (handleDeleteCategory cat cats ts).2.length = ts.length
      ∧ ∀ i : Nat, i < ts.length →
          ((handleDeleteCategory cat cats ts).2.getD i dummyTransaction).id
              = (ts.getD i dummyTransaction).id
          ∧ ((handleDeleteCategory cat cats ts).2.getD i dummyTransaction).type
              = (ts.getD i dummyTransaction).type
          ∧ ((handleDeleteCategory cat cats ts).2.getD i dummyTransaction).amount
              = (ts.getD i dummyTransaction).amount
          ∧ ((handleDeleteCategory cat cats ts).2.getD i dummyTransaction).date
              = (ts.getD i dummyTransaction).date
          ∧ ((handleDeleteCategory cat cats ts).2.getD i dummyTransaction).description
              = (ts.getD i dummyTransaction).description
          ∧ ((handleDeleteCategory cat cats ts).2.getD i dummyTransaction).category
              = (if (ts.getD i dummyTransaction).category = cat
                  then "Uncategorized" else (ts.getD i dummyTransaction).category) := by
  refine ⟨?_, ?_, by simp [handleDeleteCategory], ?_⟩
  · intro hc
    rcases List.mem_filter.mp hc with ⟨-, hne⟩
    simp at hne
  · intro c hc hne
    exact List.mem_filter.mpr ⟨hc, by simpa using hne⟩
  · intro i hi
    have hi' : i < (handleDeleteCategory cat cats ts).2.length := by
      simpa [handleDeleteCategory] using hi
    rw [List.getD_eq_getElem _ _ hi', List.getD_eq_getElem _ _ hi]
    simp only [handleDeleteCategory, List.getElem_map]
    by_cases hcat : ts[i].category = cat <;> simp [hcat]

/-- Witness for C10 at a concrete input. -/
theorem handleDeleteCategory_spec_witness :
    "A" ∉ (handleDeleteCategory "A" ["A", "B"]
        [⟨"t1", .EXPENSE, "A", 5, "2024-01-01", "x"⟩]).1
      ∧ ((handleDeleteCategory "A" ["A", "B"]
          [⟨"t1", .EXPENSE, "A", 5, "2024-01-01", "x"⟩]).2.getD 0 dummyTransaction).category
        = (if (([⟨"t1", .EXPENSE, "A", 5, "2024-01-01", "x"⟩] : List Transaction).getD 0
              dummyTransaction).category = "A"
            then "Uncategorized"
            else (([⟨"t1", .EXPENSE, "A", 5, "2024-01-01", "x"⟩] : List Transaction).getD 0
              dummyTransaction).category) :=
  ⟨(handleDeleteCategory_spec "A" ["A", "B"]
      [⟨"t1", .EXPENSE, "A", 5, "2024-01-01", "x"⟩]).1,
    ((handleDeleteCategory_spec "A" ["A", "B"]
      [⟨"t1", .EXPENSE, "A", 5, "2024-01-01", "x"⟩]).2.2.2 0 (by decide)).2.2.2.2.2⟩

end FinTrack
